import Mathlib

/-!
Verification development for the radon-extension build orchestrator.

The JavaScript sources are shallowly embedded:

  - JS objects used as string-keyed dictionaries become association lists
    (`SMap`), with lodash `Get`/`Set` modelled by `slookup`/`supdate`
    (new keys are appended, existing keys updated in place, matching JS
    property insertion order).
  - The filesystem is an explicit record of predicates (`FS`); collaborators
    (GitHub, git, semver parsing) are explicit parameters.
  - Promise rejection / thrown errors become `Except`.
  - JS strings are Lean `String`s; the handful of JS string operations used
    by the code (`indexOf`, `substring`, `startsWith`) are modelled
    explicitly where their exact semantics matter.
-/

namespace Radon

/-! # Part 1: Definitions (shallow embedding of the source) -/


/-- String-keyed association map, modelling a JS object used as a dictionary. -/
abbrev SMap (α : Type) := List (String × α)

/-- Property lookup on a JS object (`obj[k]`, `undefined` becomes `none`). -/
def slookup {α : Type} (m : SMap α) (k : String) : Option α :=
  match m.find? (fun p => p.fst == k) with
  | some p => some p.snd
  | none => none

/-- lodash `Set` at a single key: update in place when present, append when
absent (JS property insertion order). -/
def supdate {α : Type} (m : SMap α) (k : String) (f : Option α → α) : SMap α :=
  match m with
  | [] => [(k, f none)]
  | (k', v) :: rest =>
    if k' = k then (k', f (some v)) :: rest
    else (k', v) :: supdate rest k f

/-- The keys of a JS dictionary, in insertion order. -/
def skeys {α : Type} (m : SMap α) : List String := m.map Prod.fst

/-- First index of `needle` in `hay` (JS `String.prototype.indexOf`,
`none` standing for `-1`), on character lists. -/
def firstOccur (hay needle : List Char) : Option Nat :=
  if needle.isPrefixOf hay then some 0
  else
    match hay with
    | [] => none
    | _ :: t =>
      match firstOccur t needle with
      | some i => some (i + 1)
      | none => none

/-- JS `path.indexOf(sub)` on strings (`none` = `-1`). -/
def strIndexOf (s sub : String) : Option Nat :=
  firstOccur s.data sub.data

/-- JS `s.substring(start)` (drop the first `start` characters). -/
def strDropChars (s : String) (start : Nat) : String :=
  String.mk (s.data.drop start)

/-- JS `s.startsWith(pre)` / `s.indexOf(pre) === 0`. -/
def jsStartsWith (s pre : String) : Bool := pre.data.isPrefixOf s.data

/-- Character class `\d` of the dependency-version regex. -/
def isDigitChar (c : Char) : Bool := ('0' ≤ c && c ≤ '9')

/-- Character class `\w` of the dependency-version regex. -/
def isWordChar (c : Char) : Bool :=
  ('a' ≤ c && c ≤ 'z') || ('A' ≤ c && c ≤ 'Z') || isDigitChar c || c = '_'

/-- Tail of the version regex after `\d+\.\d+\.\d+`:
`(\-\w+(\.\d+)?)?$`.  (`\w` cannot match `.`, so maximal munch agrees with
backtracking semantics.) -/
def pinnedTail (cs : List Char) : Bool :=
  match cs with
  | [] => true
  | '-' :: rest =>
    let ws := rest.takeWhile isWordChar
    let after := rest.drop ws.length
    decide (ws ≠ []) &&
      (match after with
       | [] => true
       | '.' :: ds => decide (ds ≠ []) && ds.all isDigitChar
       | _ => false)
  | _ => false

/-- One `\d+\.` component: strip leading digits (at least one) followed by a
literal dot, returning the remainder. -/
def stripNumDot (cs : List Char) : Option (List Char) :=
  let ds := cs.takeWhile isDigitChar
  match cs.drop ds.length with
  | '.' :: rest => if ds.isEmpty then none else some rest
  | _ => none

/-- `DependencyVersionRegex = /^\d+\.\d+\.\d+(\-\w+(\.\d+)?)?$/` -- test
whether a declared version string is an exact pinned semantic version
(src/unnamed/part_001, line 15). -/
def pinnedVersionMatch (s : String) : Bool :=
  match stripNumDot s.data with
  | none => false
  | some r1 =>
    match stripNumDot r1 with
    | none => false
    | some r2 =>
      let ds := r2.takeWhile isDigitChar
      if ds.isEmpty then false
      else pinnedTail (r2.drop ds.length)


/-! ## Release pusher: target branches (src/lib/tasks/release/push.js) -/

/-- A semantic-version tag as parsed by the external `semver` collaborator
(`semver.major/minor/patch/prerelease`); `prerelease` is `none` for stable
tags (JS `null`), `some identifiers` for pre-release tags. -/
structure SemVer where
  major : Nat
  minor : Nat
  patch : Nat
  prerelease : Option (List String)
deriving DecidableEq, Repr

/-- `getTargetBranches` (src/lib/tasks/release/push.js, lines 60-84). -/
def getTargetBranches (tag : SemVer) : List String :=
  let branches : List String := []
  -- Develop
  let branches := if tag.patch = 0 then branches ++ ["develop"] else branches
  -- Release
  let branches := branches ++ ["v" ++ toString tag.major ++ "." ++ toString tag.minor]
  -- Master
  let branches := if tag.prerelease = none then branches ++ ["master"] else branches
  branches

/-- The series-branch string `"v<major>.<minor>"`. -/
def seriesBranch (tag : SemVer) : String :=
  "v" ++ toString tag.major ++ "." ++ toString tag.minor

/-! ## Package manifests (src/lib/core/package.js) -/

/-- A parsed `package.json` manifest as consumed by `updatePackage`:
the dependency groups may be absent (`none`); entries map a dependency name
to its declared version string.  `extras` stands for the remaining JSON
fields, which `updatePackage` never touches. -/
structure PackageManifest where
  name : Option String
  dependencies : Option (SMap String)
  peerDependencies : Option (SMap String)
  extras : SMap String
deriving DecidableEq, Repr

/-- JS object spread `{...base, ...upd}`: keys already in `base` keep their
position and take the updated value, new keys are appended. -/
def jsSpreadMerge {α : Type} (base upd : SMap α) : SMap α :=
  base.map (fun p => (p.1, (slookup upd p.1).getD p.2)) ++
    upd.filter (fun p => (slookup base p.1).isNone)

/-- `updateVersions(pkg, group)` inside `updatePackage`
(src/lib/core/package.js, lines 276-295): spread the existing group with the
subset of `versions` whose names are declared in the group, each value passed
through `options.formatVersion` (`fmt version name group`; version entries
are modelled in their plain-string form, which is never nil). -/
def updateVersions (fmt : String → String → String → String)
    (versions : SMap String) (deps : Option (SMap String)) (group : String) :
    Option (SMap String) :=
  match deps with
  | none => none
  | some dependencies =>
    some (jsSpreadMerge dependencies
      ((versions.filter (fun p => (slookup dependencies p.1).isSome)).map
        (fun p => (p.1, fmt p.2 p.1 group))))

/-- `updatePackage(pkg, versions, options)` (src/lib/core/package.js,
lines 266-306): rewrite `dependencies` and `peerDependencies` when present
and non-empty. -/
def updatePackage (fmt : String → String → String → String)
    (pkg : PackageManifest) (versions : SMap String) : PackageManifest :=
  let pkg1 :=
    match pkg.dependencies with
    | some d =>
      if d.length > 0 then
        { pkg with dependencies := updateVersions fmt versions (some d) "dependencies" }
      else pkg
    | none => pkg
  match pkg1.peerDependencies with
  | some d =>
    if d.length > 0 then
      { pkg1 with peerDependencies := updateVersions fmt versions (some d) "peerDependencies" }
    else pkg1
  | none => pkg1

/-- `writePackage(path, versions, options)` (src/lib/core/package.js,
lines 308-334): read the manifest file, update a deep clone, and only write
when something changed, resolving `false` (and leaving the file bytes
untouched) otherwise.  JSON parsing/serialisation are the `parse`/`render`
collaborators. -/
def writePackage (parse : String → PackageManifest)
    (render : PackageManifest → String)
    (fmt : String → String → String → String)
    (data : String) (versions : SMap String) : Bool × String :=
  let previous := parse data
  let current := updatePackage fmt previous versions
  if current = previous then (false, data) else (true, render current)

/-! ## Release pusher: CI polling loops (src/lib/tasks/release/push.js) -/

/-- Outcome of one GitHub combined-status request inside `getTravisStatus`:
the request either resolves the poll (a matching travis status is found),
causes another poll round (sha mismatch, travis status missing, or status
created too early), or rejects the whole poll with an API error. -/
inductive GHStep where
  | found
  | retryRound
  | apiError
deriving DecidableEq, Repr

/-- Result of `getTravisStatus`. -/
inductive GHOutcome where
  | resolved
  | rejectedTimeout
  | rejectedApi
deriving DecidableEq, Repr

/-- The polling loop of `getTravisStatus` (src/lib/tasks/release/push.js,
lines 94-149): `run()` increments `attempts`, rejects once
`attempts > retryAttempts`, otherwise issues the request for this attempt.
`responses n` is the outcome of the `n`-th request (attempts counted from 1).
Returns the outcome together with the number of status requests issued. -/
def getTravisStatusLoop (responses : Nat → GHStep) (retryAttempts : Nat)
    (attempt : Nat) : GHOutcome × Nat :=
  if attempt > retryAttempts then (.rejectedTimeout, 0)
  else
    match responses attempt with
    | .found => (.resolved, 1)
    | .apiError => (.rejectedApi, 1)
    | .retryRound =>
      let r := getTravisStatusLoop responses retryAttempts (attempt + 1)
      (r.1, r.2 + 1)
termination_by retryAttempts + 1 - attempt
decreasing_by omega

/-- `getTravisStatus` with a `retryAttempts` budget (default 20): starts the
loop at attempt 1. -/
def getTravisStatus (responses : Nat → GHStep) (retryAttempts : Nat) :
    GHOutcome × Nat :=
  getTravisStatusLoop responses retryAttempts 1

/-- Outcome of one Travis build-detail request inside `awaitTravisBuild`:
an API error retries at the maximum interval, a wrong-branch commit rejects,
a `created`/`started` state retries, any other state resolves. -/
inductive TravisStep where
  | finished
  | wrongBranch
  | stillRunning
  | apiError
deriving DecidableEq, Repr

/-- Result of `awaitTravisBuild`. -/
inductive TravisOutcome where
  | resolved
  | rejectedTimeout
  | rejectedWrongBranch
deriving DecidableEq, Repr

/-- The polling loop of `awaitTravisBuild` (src/lib/tasks/release/push.js,
lines 157-209): `run()` increments `attempts`, rejects with a build-timeout
error once `attempts > maximumAttempts`, otherwise issues the build-detail
request for this attempt; API errors and running states re-enter the loop.
Returns the outcome and the number of build-detail requests issued. -/
def awaitTravisBuildLoop (responses : Nat → TravisStep) (maximumAttempts : Nat)
    (attempt : Nat) : TravisOutcome × Nat :=
  if attempt > maximumAttempts then (.rejectedTimeout, 0)
  else
    match responses attempt with
    | .finished => (.resolved, 1)
    | .wrongBranch => (.rejectedWrongBranch, 1)
    | .stillRunning =>
      let r := awaitTravisBuildLoop responses maximumAttempts (attempt + 1)
      (r.1, r.2 + 1)
    | .apiError =>
      let r := awaitTravisBuildLoop responses maximumAttempts (attempt + 1)
      (r.1, r.2 + 1)
termination_by maximumAttempts + 1 - attempt
decreasing_by all_goals omega

/-- `awaitTravisBuild` with a `maximumAttempts` budget (default 120). -/
def awaitTravisBuild (responses : Nat → TravisStep) (maximumAttempts : Nat) :
    TravisOutcome × Nat :=
  awaitTravisBuildLoop responses maximumAttempts 1

/-! ## Install orchestrator (src/lib/tasks/travis/install.js, src/unnamed/part_000) -/

/-- Node `Path.join(a, b)` for the normalized path pieces used here. -/
def pathJoin (a b : String) : String := a ++ "/" ++ b

/-- The external `semver` collaborator as used by `getBranches`. -/
structure SemverOps where
  valid : String → Bool
  major : String → Nat
  minor : String → Nat

/-- `getBranches(ref)` (src/lib/tasks/travis/install.js, lines 57-69). -/
def getBranches (sv : SemverOps) (ref : String) : List String :=
  if ref = "master" ∨ ref = "develop" then [ref]
  else if sv.valid ref then
    [ref, "v" ++ toString (sv.major ref) ++ "." ++ toString (sv.minor ref)]
  else [ref, "develop"]

/-- Collaborators consulted by `clone`. -/
structure CloneEnv where
  existsSync : String → Bool
  githubExists : String → String → Bool
  semver : SemverOps

/-- Network / source-control calls performed by `clone`. -/
inductive CloneEffect where
  | githubExists (name branch : String)
  | gitClone (modulesPath url localPath branch : String)
deriving DecidableEq, Repr

/-- Resolved value of `clone`. -/
structure CloneResult where
  branch : String
  localPath : String
deriving DecidableEq, Repr

/-- Modelled from the spec: `resolveOne` lives in `src/lib/core/helpers/promise.js`,
which is not under src/; per the spec the clone step "tries each candidate
branch in order (...) and clones the first one confirmed to exist remotely",
rejecting when no candidate exists.  Returns the outcome and the collaborator
calls performed. -/
def cloneResolveOne (env : CloneEnv) (name modulesPath localPath : String) :
    List String → Except String CloneResult × List CloneEffect
  | [] => (.error ("Unable to clone: " ++ name), [])
  | b :: rest =>
    if env.githubExists name b then
      (.ok ⟨b, localPath⟩,
        [.githubExists name b,
          .gitClone modulesPath ("https://github.com/RadonApp/" ++ name ++ ".git") localPath b])
    else
      let r := cloneResolveOne env name modulesPath localPath rest
      (r.1, .githubExists name b :: r.2)

/-- `clone(target, branch, name)` (src/lib/tasks/travis/install.js, lines
71-103; identically src/unnamed/part_000, lines 34-66): reject invalid
repository names, short-circuit when the local module path already exists,
otherwise try the candidate branches. -/
def clone (env : CloneEnv) (target branch name : String) :
    Except String CloneResult × List CloneEffect :=
  if ¬ jsStartsWith name "radon-extension-" then
    (.error ("Invalid repository name: " ++ name), [])
  else
    let modulesPath := pathJoin target ".modules"
    let localPath := pathJoin modulesPath name
    if env.existsSync localPath then (.ok ⟨branch, localPath⟩, [])
    else cloneResolveOne env name modulesPath localPath (getBranches env.semver branch)

/-! ## Module resolver (src/unnamed/part_000: resolve / resolveMany) -/

/-- Repository status as produced by the source-control collaborator
(`Git.status`, with the fallback default of `resolve`). -/
structure RepositoryStatus where
  ahead : Nat
  dirty : Bool
  branch : Option String
  commit : Option String
  tag : Option String
  latestTag : Option String
deriving DecidableEq, Repr

/-- The repository-status validation step of `resolve` (src/unnamed/part_000,
lines 740-763): when the resolved status has neither a commit hash nor a
dirty flag, `resolve` logs an error and returns `Promise.reject()` — the
rejection propagates out of `resolve` (the error value carries the logged
message); otherwise resolution continues with this status. -/
def checkRepositoryStatus (repository : RepositoryStatus) :
    Except String RepositoryStatus :=
  if repository.commit = none ∧ repository.dirty = false then
    .error "Invalid repository status (no commit defined)"
  else .ok repository

/-- Modelled from the spec: `runSequential` lives in
`src/lib/core/helpers/promise.js`, which is not under src/; per the spec
"Resolution of each module proceeds sequentially (...); one failure aborts
the whole graph build" — each item is resolved in order and the first
rejection aborts the remainder (`resolveMany`, src/unnamed/part_000, lines
812-827). -/
def runSequentialE {α β : Type} (f : α → Except String β) :
    List α → Except String (List β)
  | [] => .ok []
  | x :: rest =>
    match f x with
    | .error e => .error e
    | .ok y =>
      match runSequentialE f rest with
      | .error e => .error e
      | .ok ys => .ok (y :: ys)

/-! ## Dependency validator (src/unnamed/part_001) -/

/-- Filesystem collaborator consulted by `Validator.parseDependency`
(`readNameSync path` is the `name` field of the `package.json` at `path`,
modelled as always a string). -/
structure FS where
  existsSync : String → Bool
  isFileSync : String → Bool
  pathExistsSync : String → Bool
  readNameSync : String → String

/-- Segments of a normalized absolute path. -/
def pathSegments (p : String) : List String :=
  (p.splitOn "/").filter (fun s => ¬ s.isEmpty)

/-- Node `Path.resolve(path, '..')` on a normalized absolute path: drop the
last segment; the root is its own parent. -/
def parentPath (p : String) : String :=
  let segs := pathSegments p
  if segs.isEmpty then "/"
  else "/" ++ String.intercalate "/" segs.dropLast

/-- A parsed dependency request (`{name, path}`). -/
structure DependencySpec where
  name : String
  path : Option String
deriving DecidableEq, Repr

/-- JS `request.substring(0, request.indexOf('/'))`: the empty string when
`'/'` is absent (`indexOf` is `-1`, and `substring` clamps) or leading. -/
def jsPrefixBeforeSlash (request : String) : String :=
  match strIndexOf request "/" with
  | none => ""
  | some i => String.mk (request.data.take i)

/-- The `while(true)` walk-up loop of `parseDependency` (src/unnamed/part_001,
lines 461-478): look for the nearest directory containing `package.json`,
stepping to the parent until the parent equals the path (the root).  The
source loop terminates because `Path.resolve(path, '..')` strictly shortens
the path; `fuel` (instantiated to the segment count plus one) makes that
measure explicit. -/
def findPackagePath (fs : FS) : Nat → String → Option String
  | 0, _ => none
  | fuel + 1, path =>
    if fs.pathExistsSync (pathJoin path "package.json") then some path
    else
      let next := parentPath path
      if next = path then none
      else findPackagePath fs fuel next

/-- `Validator.parseDependency(request)` (src/unnamed/part_001, lines
441-495).  A request that does not exist on disk yields
`{name: request.substring(0, request.indexOf('/')) || request, path: null}`.
Otherwise the walk-up loop finds the nearest package directory and the name
is read from its `package.json` (the name/path mismatch warning, which does
not affect the result, is omitted). -/
def parseDependency (fs : FS) (request : String) : Option DependencySpec :=
  if ¬ fs.existsSync request then
    let name := jsPrefixBeforeSlash request
    some ⟨if name = "" then request else name, none⟩
  else
    let path0 := if fs.isFileSync request then parentPath request else request
    match findPackagePath fs ((pathSegments path0).length + 1) path0 with
    | none => none
    | some dir => some ⟨fs.readNameSync (pathJoin dir "package.json"), some dir⟩

/-- `IgnoredPackages` (src/unnamed/part_001, lines 17-22). -/
def IgnoredPackages : List String := ["jquery", "react", "react-dom", "webpack"]

/-- Package details of a module as produced by `readPackageDetails`
(src/lib/core/package.js): the dependency groups are always objects. -/
structure PackageDetails where
  name : String
  dependencies : SMap String
  devDependencies : SMap String
  peerDependencies : SMap String
deriving DecidableEq, Repr

/-- A resolved module as consumed by the validator. -/
structure Module where
  name : String
  type : String
  path : String
  package : PackageDetails
deriving DecidableEq, Repr

/-- `browser.extension` as consumed by `Validator.finish`. -/
structure ExtensionInfo where
  package : PackageDetails
deriving DecidableEq, Repr

/-- The browser context consumed by the validator (`browser.package` is the
browser's package name, used by `registerLink`). -/
structure Browser where
  name : String
  package : String
  extension : ExtensionInfo
  modules : List Module
deriving DecidableEq, Repr

/-- The build environment context. -/
structure Environment where
  name : String
deriving DecidableEq, Repr

/-- Validator instance state: the used-dependency index
`dependencies[browser][environment][module][dependency]` and the sticky
`this._error` flag (`errorFlag`). -/
structure VState where
  dependencies : SMap (SMap (SMap (SMap Bool)))
  errorFlag : Bool
deriving Repr

/-- lodash `Set(this.dependencies, [b, e, m, d], true)`: create the nested
path, updating in place / appending new keys. -/
def setDependencyPath (idx : SMap (SMap (SMap (SMap Bool)))) (b e m d : String) :
    SMap (SMap (SMap (SMap Bool))) :=
  supdate idx b (fun o1 =>
    supdate (o1.getD []) e (fun o2 =>
      supdate (o2.getD []) m (fun o3 =>
        supdate (o3.getD []) d (fun _ => true))))

/-- `Validator._isModulePermitted(module, name)` (src/unnamed/part_001,
lines 340-346). -/
def isModulePermitted (module : Option Module) (name : String) : Bool :=
  match module with
  | none => true
  | some _ => name = "@radon-extension/framework"

/-- Return value of `validateRequirement` / `validateModule`: either the JS
object `{dependency, valid}` or the bare `false` returned on the
pinned-version branch (destructuring `false` in the caller yields
`undefined` fields). -/
inductive VDResult where
  | obj (dependency : Option String) (valid : Bool)
  | jsFalse
deriving DecidableEq, Repr

/-- The `valid` field seen by the caller's destructuring (truthiness;
`undefined` for the bare `false` return). -/
def VDResult.validTruthy : VDResult → Bool
  | .obj _ v => v
  | .jsFalse => false

/-- The `dependency` field seen by the caller's destructuring. -/
def VDResult.dependencyField : VDResult → Option String
  | .obj d _ => d
  | .jsFalse => none

/-- `Validator.validateRequirement(dep, module)` (src/unnamed/part_001,
lines 144-198): external-package edges are checked against `dependencies`,
must not appear in `devDependencies` or `peerDependencies`, and must not be
pinned to an exact version (the pinned branch sets `this._error` directly
and returns the bare `false`). -/
def validateRequirement (st : VState) (dep : DependencySpec) (module : Module) :
    VState × VDResult :=
  match slookup module.package.dependencies dep.name with
  | none => (st, .obj none false)
  | some moduleDependency =>
    if (slookup module.package.devDependencies dep.name).isSome then
      (st, .obj (some moduleDependency) false)
    else if (slookup module.package.peerDependencies dep.name).isSome then
      (st, .obj (some moduleDependency) false)
    else if pinnedVersionMatch moduleDependency then
      ({ st with errorFlag := true }, .jsFalse)
    else (st, .obj (some moduleDependency) true)

/-- `Validator.validateModule(dep, module)` (src/unnamed/part_001, lines
200-241): internal-module edges are checked against `peerDependencies`,
must not appear in `devDependencies`, and must not be pinned. -/
def validateModule (st : VState) (dep : DependencySpec) (module : Module) :
    VState × VDResult :=
  match slookup module.package.peerDependencies dep.name with
  | none => (st, .obj none false)
  | some moduleDependency =>
    if (slookup module.package.devDependencies dep.name).isSome then
      (st, .obj (some moduleDependency) false)
    else if pinnedVersionMatch moduleDependency then
      ({ st with errorFlag := true }, .jsFalse)
    else (st, .obj (some moduleDependency) true)

/-- `Validator.validateDependency(dep, module)` (src/unnamed/part_001,
lines 136-142). -/
def validateDependency (st : VState) (dep : DependencySpec) (module : Module) :
    VState × VDResult :=
  if jsStartsWith dep.name "@radon-extension/" then validateModule st dep module
  else validateRequirement st dep module

/-- The tail of `validateReason` after the requesting module has been looked
up (src/unnamed/part_001, lines 95-133): self-dependencies are valid,
forbidden internal-namespace edges and package-type / unknown requesters are
hard errors, otherwise the edge is validated and recorded in the
used-dependency index. -/
def validateReasonCore (st : VState) (browser : Browser) (environment : Environment)
    (dep : DependencySpec) (module : Option Module) : VState × Bool :=
  if module.any (fun m => dep.name == m.name) then (st, true)
  else if jsStartsWith dep.name "@radon-extension/" ∧ isModulePermitted module dep.name = false then
    ({ st with errorFlag := true }, false)
  else
    match module with
    | some m =>
      if m.type ≠ "package" then
        let res := validateDependency st dep m
        if res.2.validTruthy = false then ({ res.1 with errorFlag := true }, false)
        else
          match res.2.dependencyField with
          | some _ =>
            ({ res.1 with
                dependencies :=
                  setDependencyPath res.1.dependencies browser.name environment.name
                    m.name dep.name },
              true)
          | none => (res.1, true)
      else ({ st with errorFlag := true }, false)
    | none => ({ st with errorFlag := true }, false)

/-- `Validator.validateReason(browser, environment, source, request)`
(src/unnamed/part_001, lines 53-134).  A `none` request or unparsable
dependency is skipped with a warning; ignored third-party packages are
skipped; a source matching no known module path is a hard error. -/
def validateReason (fs : FS) (st : VState) (browser : Browser)
    (environment : Environment) (source : Option String) (request : Option String) :
    VState × Bool :=
  match request with
  | none => (st, false)
  | some req =>
    match parseDependency fs req with
    | none => (st, false)
    | some dep =>
      if IgnoredPackages.contains dep.name then (st, false)
      else
        match source with
        | none => validateReasonCore st browser environment dep none
        | some src =>
          match browser.modules.find? (fun m => jsStartsWith src m.path) with
          | none => ({ st with errorFlag := true }, false)
          | some m => validateReasonCore st browser environment dep (some m)

/-- `this.dependencies[browser.name][environment.name]` as read by `finish`. -/
def recordedDependencies (st : VState) (b e : String) : Option (SMap (SMap Bool)) :=
  match slookup st.dependencies b with
  | none => none
  | some be => slookup be e

/-- `Validator._checkDependencies(prefix, current, matched, moduleName)`
(src/unnamed/part_001, lines 313-338): every declared dependency that is not
namespaced to `@radon-extension/` and was not marked in `matched` produces
one warning, tagged with the module name (`none` for the top-level package). -/
def checkDependencies (current : SMap String) (matched : SMap Bool)
    (moduleName : Option String) : List (Option String × String) :=
  (current.filter (fun p =>
      !(jsStartsWith p.1 "@radon-extension/") && !((slookup matched p.1).getD false))).map
    (fun p => (moduleName, p.1))

/-- `Validator.finish(browser, environment)` (src/unnamed/part_001, lines
286-311): throw when the sticky error flag is set; throw when no dependency
edge was recorded under `(browser.name, environment.name)`; otherwise audit
unused dependencies of the top-level package (matched set read at the JS key
`obj[null]`, i.e. the property `"null"`) and of every non-package, non-tool
module, returning the warning list. -/
def finish (st : VState) (browser : Browser) (environment : Environment) :
    Except String (List (Option String × String)) :=
  if st.errorFlag then .error "Build didn't pass validation"
  else
    match recordedDependencies st browser.name environment.name with
    | none => .error "No dependencies validated"
    | some envDeps =>
      .ok (checkDependencies browser.extension.package.dependencies
            ((slookup envDeps "null").getD []) none
          ++ (browser.modules.filter
                (fun m => !(m.type == "package" || m.type == "tool"))).flatMap
            (fun m =>
              checkDependencies m.package.dependencies
                ((slookup envDeps m.name).getD []) (some m.name)))

/-- The process-wide `Validator.links` registry:
`links[browser.name][environment.name][target] = source`. -/
abbrev Links := SMap (SMap (SMap String))

/-- JS `s.lastIndexOf(sub)` on character lists (`none` = `-1`). -/
def lastOccur (hay needle : List Char) : Option Nat :=
  match hay with
  | [] => if needle.isEmpty then some 0 else none
  | _ :: t =>
    match lastOccur t needle with
    | some i => some (i + 1)
    | none => if needle.isPrefixOf hay then some 0 else none

/-- JS `s.substring(0, e)` with clamping of negative `e`. -/
def jsSubstringTo (s : String) (e : Int) : String :=
  String.mk (s.data.take (max e 0).toNat)

/-- Node `Path.basename` for the normalized paths used here. -/
def pathBasename (p : String) : String :=
  match (pathSegments p).getLast? with
  | some s => s
  | none => p

/-- Write one link into the registry (lodash `Set(Validator.links,
[browser.name, environment.name, target], source)`). -/
def setLink (links : Links) (b e target source : String) : Links :=
  supdate links b (fun o1 =>
    supdate (o1.getD []) e (fun o2 =>
      supdate (o2.getD []) target (fun _ => source)))

/-- `Validator.registerLink(browser, environment, source, target)`
(src/unnamed/part_001, lines 352-383): parse the source into a dependency
name (a failure would throw in JS, modelled as `none`), ignore internal
modules, keep an existing registration whose source belongs to the browser's
own package, otherwise record `target -> source`. -/
def registerLink (fs : FS) (links : Links) (browser : Browser)
    (environment : Environment) (source target : String) : Option Links :=
  match parseDependency fs source with
  | none => none
  | some dep =>
    if jsStartsWith dep.name "@radon-extension/" then some links
    else
      let current :=
        match slookup links browser.name with
        | none => none
        | some be =>
          match slookup be environment.name with
          | none => none
          | some te => slookup te target
      match current with
      | some cur =>
        let pos : Int :=
          match lastOccur cur.data "node_modules".data with
          | none => -1
          | some i => Int.ofNat i
        let module := pathBasename (jsSubstringTo cur (pos - 1))
        if browser.package = module then some links
        else some (setLink links browser.name environment.name target source)
      | none => some (setLink links browser.name environment.name target source)

/-- The rewrite loop of `resolveLink` over the `(target, source)` entries of
the registry, in insertion order: the first entry whose target occurs in the
path rewrites that occurrence prefix to the source and stops the iteration
(`return false`). -/
def resolveLinkGo : List (String × String) → String → String
  | [], p => p
  | (target, source) :: rest, p =>
    match strIndexOf p target with
    | none => resolveLinkGo rest p
    | some i => source ++ strDropChars p (i + target.length)

/-- `Validator.resolveLink(browser, environment, path)` (src/unnamed/part_001,
lines 385-404). -/
def resolveLink (links : Links) (browser : Browser) (environment : Environment)
    (path : Option String) : Option String :=
  match path with
  | none => none
  | some p =>
    let entries :=
      match slookup links browser.name with
      | none => []
      | some be => (slookup be environment.name).getD []
    some (resolveLinkGo entries p)

/-- A sequence of `validateReason` calls threaded through the validator
state (each element is the `(source, request)` pair of one validation). -/
def runValidations (fs : FS) (browser : Browser) (environment : Environment)
    (st : VState) (calls : List (Option String × Option String)) : VState :=
  calls.foldl (fun s c => (validateReason fs s browser environment c.1 c.2).1) st

/-- The dependency name the claim describes for a request that is not on
disk: the substring before the first `'/'` when non-empty, the whole request
otherwise. -/
def claimedMissingName (request : String) : String :=
  match strIndexOf request "/" with
  | none => request
  | some 0 => request
  | some (i + 1) => String.mk (request.data.take (i + 1))

/-! # Part 2: Theorems -/

example : pinnedVersionMatch "4.17.5" = true := by decide
example : pinnedVersionMatch "1.2.3-beta.1" = true := by decide
example : pinnedVersionMatch "^4.17.5" = false := by decide
example : pinnedVersionMatch "~1.2.3" = false := by decide
example : pinnedVersionMatch "1.2.x" = false := by decide
example : pinnedVersionMatch "1.2.3-beta" = true := by decide
example : pinnedVersionMatch "1.2.3-beta.1.2" = false := by decide

example : getTargetBranches ⟨1, 2, 0, none⟩ = ["develop", "v1.2", "master"] := by decide
example : getTargetBranches ⟨1, 2, 3, none⟩ = ["v1.2", "master"] := by decide
example : getTargetBranches ⟨1, 2, 3, some ["beta", "1"]⟩ = ["v1.2"] := by decide

theorem seriesBranch_ne_develop (tag : SemVer) : seriesBranch tag ≠ "develop" := by
  intro h
  have hd := congrArg String.data h
  simp [seriesBranch, String.data_append] at hd

theorem seriesBranch_ne_master (tag : SemVer) : seriesBranch tag ≠ "master" := by
  intro h
  have hd := congrArg String.data h
  simp [seriesBranch, String.data_append] at hd

theorem slookup_eq_none_of_not_mem_keys {α : Type} (m : SMap α) (k : String)
    (h : k ∉ skeys m) : slookup m k = none := by
  have hf : m.find? (fun p => p.fst == k) = none := by
    apply List.find?_eq_none.mpr
    intro p hp
    simp only [beq_iff_eq]
    intro hk
    exact h (by simpa [skeys, hk] using List.mem_map_of_mem Prod.fst hp)
  simp [slookup, hf]

theorem jsSpreadMerge_nil {α : Type} (base : SMap α) : jsSpreadMerge base [] = base := by
  simp [jsSpreadMerge, slookup]

/-- C7: dependency-version update is selective: a manifest that declares no
dependency named `A` (in `dependencies` or `peerDependencies`) is returned
unchanged by `updatePackage {A: v}`, and `writePackage` on such a manifest
file resolves `false` and leaves the file bytes unchanged. -/
theorem updatePackage_selective_noop (fmt : String → String → String → String)
    (pkg : PackageManifest) (parse : String → PackageManifest)
    (render : PackageManifest → String) (data : String) (a v : String)
    (h1 : a ∉ skeys (pkg.dependencies.getD []))
    (h2 : a ∉ skeys (pkg.peerDependencies.getD []))
    (hparse : parse data = pkg) :
    updatePackage fmt pkg [(a, v)] = pkg ∧
      writePackage parse render fmt data [(a, v)] = (false, data) := by
  have hupd : updatePackage fmt pkg [(a, v)] = pkg := by
    have key : ∀ d : SMap String, a ∉ skeys d →
        updateVersions fmt [(a, v)] (some d) "dependencies" = some d ∧
          updateVersions fmt [(a, v)] (some d) "peerDependencies" = some d := by
      intro d hd
      have hnone : slookup d a = none := slookup_eq_none_of_not_mem_keys d a hd
      constructor <;>
        simp [updateVersions, List.filter, hnone, jsSpreadMerge_nil]
    obtain ⟨nm, dep, peer, ex⟩ := pkg
    unfold updatePackage
    cases dep with
    | none =>
      cases peer with
      | none => simp
      | some d =>
        have hd2 := (key d (by simpa using h2)).2
        by_cases hl : d.length > 0 <;> simp [hl, hd2]
    | some d =>
      have hd1 := (key d (by simpa using h1)).1
      cases peer with
      | none =>
        by_cases hl : d.length > 0 <;> simp [hl, hd1]
      | some d2 =>
        have hd2 := (key d2 (by simpa using h2)).2
        by_cases hl : d.length > 0 <;> by_cases hl2 : d2.length > 0 <;>
          simp [hl, hl2, hd1, hd2]
  refine ⟨hupd, ?_⟩
  simp [writePackage, hparse, hupd]

/-- C7 witness: a concrete manifest without dependency `a`. -/
theorem updatePackage_selective_noop_witness :
    updatePackage (fun ver _ _ => ver)
        ⟨some "mod", some [("lodash", "^4.17.5")], none, []⟩ [("a", "2.0.0")] =
        ⟨some "mod", some [("lodash", "^4.17.5")], none, []⟩ ∧
      writePackage (fun _ => ⟨some "mod", some [("lodash", "^4.17.5")], none, []⟩)
        (fun _ => "") (fun ver _ _ => ver) "raw-manifest-bytes" [("a", "2.0.0")] =
        (false, "raw-manifest-bytes") :=
  updatePackage_selective_noop (fun ver _ _ => ver)
    ⟨some "mod", some [("lodash", "^4.17.5")], none, []⟩
    (fun _ => ⟨some "mod", some [("lodash", "^4.17.5")], none, []⟩)
    (fun _ => "") "raw-manifest-bytes" "a" "2.0.0"
    (by decide) (by decide) rfl

theorem develop_ne_seriesBranch (tag : SemVer) : "develop" ≠ seriesBranch tag :=
  fun h => seriesBranch_ne_develop tag h.symm

theorem master_ne_seriesBranch (tag : SemVer) : "master" ≠ seriesBranch tag :=
  fun h => seriesBranch_ne_master tag h.symm

/-- C5: For every semantic-version tag, `getTargetBranches` contains
`"develop"` iff the patch component is zero, always contains the series
branch `"v<major>.<minor>"`, and contains `"master"` iff the tag has no
pre-release component; in particular the three concrete examples
`v1.2.0`, `v1.2.3` and `v1.2.3-beta.1` produce exactly the listed branches. -/
theorem getTargetBranches_spec (tag : SemVer) :
    ("develop" ∈ getTargetBranches tag ↔ tag.patch = 0) ∧
      seriesBranch tag ∈ getTargetBranches tag ∧
      ("master" ∈ getTargetBranches tag ↔ tag.prerelease = none) ∧
      getTargetBranches ⟨1, 2, 0, none⟩ = ["develop", "v1.2", "master"] ∧
      getTargetBranches ⟨1, 2, 3, none⟩ = ["v1.2", "master"] ∧
      getTargetBranches ⟨1, 2, 3, some ["beta", "1"]⟩ = ["v1.2"] := by
  have hd : ¬"develop" = "v" ++ toString tag.major ++ "." ++ toString tag.minor :=
    develop_ne_seriesBranch tag
  have hm : ¬"master" = "v" ++ toString tag.major ++ "." ++ toString tag.minor :=
    master_ne_seriesBranch tag
  have hs : seriesBranch tag = "v" ++ toString tag.major ++ "." ++ toString tag.minor := rfl
  refine ⟨?_, ?_, ?_, by decide, by decide, by decide⟩ <;>
    by_cases hp : tag.patch = 0 <;> by_cases hq : tag.prerelease = none <;>
      simp [getTargetBranches, hp, hq, hd, hm, hs]

theorem getTravisStatusLoop_requests_le (responses : Nat → GHStep) (retryAttempts : Nat) :
    ∀ fuel attempt, retryAttempts + 1 - attempt ≤ fuel →
      (getTravisStatusLoop responses retryAttempts attempt).2 ≤ retryAttempts + 1 - attempt := by
  intro fuel
  induction fuel with
  | zero =>
    intro attempt h
    have ha : attempt > retryAttempts := by omega
    rw [getTravisStatusLoop]
    simp [ha]
  | succ n ih =>
    intro attempt h
    rw [getTravisStatusLoop]
    by_cases ha : attempt > retryAttempts
    · simp [ha]
    · simp only [ha, if_false]
      cases hr : responses attempt
      · show (1 : Nat) ≤ retryAttempts + 1 - attempt
        omega
      · show (getTravisStatusLoop responses retryAttempts (attempt + 1)).2 + 1 ≤
          retryAttempts + 1 - attempt
        have := ih (attempt + 1) (by omega)
        omega
      · show (1 : Nat) ≤ retryAttempts + 1 - attempt
        omega

theorem getTravisStatusLoop_all_retry (responses : Nat → GHStep) (retryAttempts : Nat)
    (hall : ∀ i, responses i = GHStep.retryRound) :
    ∀ fuel attempt, retryAttempts + 1 - attempt ≤ fuel →
      getTravisStatusLoop responses retryAttempts attempt =
        (GHOutcome.rejectedTimeout, retryAttempts + 1 - attempt) := by
  intro fuel
  induction fuel with
  | zero =>
    intro attempt h
    have ha : attempt > retryAttempts := by omega
    rw [getTravisStatusLoop]
    simp [ha]
    omega
  | succ n ih =>
    intro attempt h
    rw [getTravisStatusLoop]
    by_cases ha : attempt > retryAttempts
    · simp [ha]
      omega
    · simp only [ha, if_false, hall attempt]
      rw [ih (attempt + 1) (by omega)]
      show ((GHOutcome.rejectedTimeout, retryAttempts + 1 - (attempt + 1) + 1) :
          GHOutcome × Nat) = (GHOutcome.rejectedTimeout, retryAttempts + 1 - attempt)
      simp only [Prod.mk.injEq]
      exact ⟨trivial, by omega⟩

theorem awaitTravisBuildLoop_requests_le (responses : Nat → TravisStep) (maximumAttempts : Nat) :
    ∀ fuel attempt, maximumAttempts + 1 - attempt ≤ fuel →
      (awaitTravisBuildLoop responses maximumAttempts attempt).2 ≤ maximumAttempts + 1 - attempt := by
  intro fuel
  induction fuel with
  | zero =>
    intro attempt h
    have ha : attempt > maximumAttempts := by omega
    rw [awaitTravisBuildLoop]
    simp [ha]
  | succ n ih =>
    intro attempt h
    rw [awaitTravisBuildLoop]
    by_cases ha : attempt > maximumAttempts
    · simp [ha]
    · simp only [ha, if_false]
      cases hr : responses attempt
      · show (1 : Nat) ≤ maximumAttempts + 1 - attempt
        omega
      · show (1 : Nat) ≤ maximumAttempts + 1 - attempt
        omega
      · show (awaitTravisBuildLoop responses maximumAttempts (attempt + 1)).2 + 1 ≤
          maximumAttempts + 1 - attempt
        have := ih (attempt + 1) (by omega)
        omega
      · show (awaitTravisBuildLoop responses maximumAttempts (attempt + 1)).2 + 1 ≤
          maximumAttempts + 1 - attempt
        have := ih (attempt + 1) (by omega)
        omega

theorem awaitTravisBuildLoop_never_finishes (responses : Nat → TravisStep) (maximumAttempts : Nat)
    (hall : ∀ i, responses i = TravisStep.stillRunning ∨ responses i = TravisStep.apiError) :
    ∀ fuel attempt, maximumAttempts + 1 - attempt ≤ fuel →
      awaitTravisBuildLoop responses maximumAttempts attempt =
        (TravisOutcome.rejectedTimeout, maximumAttempts + 1 - attempt) := by
  intro fuel
  induction fuel with
  | zero =>
    intro attempt h
    have ha : attempt > maximumAttempts := by omega
    rw [awaitTravisBuildLoop]
    simp [ha]
    omega
  | succ n ih =>
    intro attempt h
    rw [awaitTravisBuildLoop]
    by_cases ha : attempt > maximumAttempts
    · simp [ha]
      omega
    · simp only [ha, if_false]
      rcases hall attempt with hr | hr <;> rw [hr] <;>
        rw [ih (attempt + 1) (by omega)] <;>
        exact (by
          show ((TravisOutcome.rejectedTimeout, maximumAttempts + 1 - (attempt + 1) + 1) :
              TravisOutcome × Nat) = (TravisOutcome.rejectedTimeout, maximumAttempts + 1 - attempt)
          simp only [Prod.mk.injEq]
          exact ⟨trivial, by omega⟩)

/-- C9: For every attempt budget `N`, `getTravisStatus` issues at most `N`
status requests, and when every attempt fails to find a matching status it
rejects after exactly the `N`-th attempt; likewise `awaitTravisBuild` issues
at most `maximumAttempts` build requests and rejects with a build-timeout
error once the budget is exceeded.  Both loops are total Lean functions, so
neither loops forever. -/
theorem ci_polling_bounded (ghResponses : Nat → GHStep) (tvResponses : Nat → TravisStep)
    (n m : Nat) (hn : 1 ≤ n) (hm : 1 ≤ m) :
    (getTravisStatus ghResponses n).2 ≤ n ∧
      ((∀ i, ghResponses i = GHStep.retryRound) →
        getTravisStatus ghResponses n = (GHOutcome.rejectedTimeout, n)) ∧
      (awaitTravisBuild tvResponses m).2 ≤ m ∧
      ((∀ i, tvResponses i = TravisStep.stillRunning ∨ tvResponses i = TravisStep.apiError) →
        awaitTravisBuild tvResponses m = (TravisOutcome.rejectedTimeout, m)) := by
  refine ⟨?_, ?_, ?_, ?_⟩
  · have h := getTravisStatusLoop_requests_le ghResponses n n 1 (by omega)
    show (getTravisStatusLoop ghResponses n 1).2 ≤ n
    omega
  · intro hall
    have h := getTravisStatusLoop_all_retry ghResponses n hall n 1 (by omega)
    show getTravisStatusLoop ghResponses n 1 = (GHOutcome.rejectedTimeout, n)
    rw [h]
    simp only [Prod.mk.injEq]
    exact ⟨trivial, by omega⟩
  · have h := awaitTravisBuildLoop_requests_le tvResponses m m 1 (by omega)
    show (awaitTravisBuildLoop tvResponses m 1).2 ≤ m
    omega
  · intro hall
    have h := awaitTravisBuildLoop_never_finishes tvResponses m hall m 1 (by omega)
    show awaitTravisBuildLoop tvResponses m 1 = (TravisOutcome.rejectedTimeout, m)
    rw [h]
    simp only [Prod.mk.injEq]
    exact ⟨trivial, by omega⟩

/-- C9 witness: with a budget of 3 attempts and polls that never find the
status / never see a finished build, both loops reject after exactly 3
requests. -/
theorem ci_polling_bounded_witness :
    (getTravisStatus (fun _ : Nat => GHStep.retryRound) 3).2 ≤ 3 ∧
      ((∀ i, (fun _ : Nat => GHStep.retryRound) i = GHStep.retryRound) →
        getTravisStatus (fun _ : Nat => GHStep.retryRound) 3 = (GHOutcome.rejectedTimeout, 3)) ∧
      (awaitTravisBuild (fun _ : Nat => TravisStep.stillRunning) 3).2 ≤ 3 ∧
      ((∀ i, (fun _ : Nat => TravisStep.stillRunning) i = TravisStep.stillRunning ∨
          (fun _ : Nat => TravisStep.stillRunning) i = TravisStep.apiError) →
        awaitTravisBuild (fun _ : Nat => TravisStep.stillRunning) 3 = (TravisOutcome.rejectedTimeout, 3)) :=
  ci_polling_bounded (fun _ : Nat => GHStep.retryRound) (fun _ : Nat => TravisStep.stillRunning) 3 3
    (by decide) (by decide)

theorem firstOccur_bound (needle hay : List Char) (i : Nat)
    (h : firstOccur hay needle = some i) : i + needle.length ≤ hay.length := by
  induction hay generalizing i with
  | nil =>
    unfold firstOccur at h
    by_cases hp : needle.isPrefixOf ([] : List Char)
    · rw [if_pos hp] at h
      have hlen := (List.isPrefixOf_iff_prefix.mp hp).length_le
      injection h with h
      simp only [List.length_nil] at hlen ⊢
      omega
    · rw [if_neg hp] at h
      exact absurd h (by simp)
  | cons c t ih =>
    unfold firstOccur at h
    by_cases hp : needle.isPrefixOf (c :: t)
    · rw [if_pos hp] at h
      injection h with h
      have := (List.isPrefixOf_iff_prefix.mp hp).length_le
      omega
    · rw [if_neg hp] at h
      have h2 : (match firstOccur t needle with
          | some i => some (i + 1)
          | none => none) = some i := h
      cases hf : firstOccur t needle with
      | none => rw [hf] at h2; exact absurd h2 (by simp)
      | some j =>
        rw [hf] at h2
        injection h2 with h2
        have := ih j hf
        simp only [List.length_cons]
        omega

/-- C10: For every request string whose path does not exist on the
filesystem, `Validator.parseDependency` returns `{name, path: null}` (it
never throws), where `name` is the substring before the first `'/'` when
that substring is non-empty, and the whole request otherwise. -/
theorem parseDependency_missing_path (fs : FS) (request : String)
    (h : fs.existsSync request = false) :
    parseDependency fs request = some ⟨claimedMissingName request, none⟩ := by
  unfold parseDependency
  rw [h]
  simp only [Bool.false_eq_true, not_false_eq_true, if_true, Option.some.injEq]
  refine congrArg (fun n => DependencySpec.mk n none) ?_
  unfold jsPrefixBeforeSlash claimedMissingName
  cases hio : strIndexOf request "/" with
  | none => simp
  | some i =>
    cases i with
    | zero => simp
    | succ j =>
      have hb := firstOccur_bound "/".data request.data (j + 1) hio
      have hne : request.data ≠ [] := by
        intro hx
        rw [hx] at hb
        simp at hb
      have : String.mk (request.data.take (j + 1)) ≠ "" := by
        intro hx
        have : request.data.take (j + 1) = [] := by
          have := congrArg String.data hx
          simpa using this
        rcases List.take_eq_nil_iff.mp this with h1 | h1
        · omega
        · exact hne h1
      simp [this]

/-- C10 witness: a bare external request `"lodash"` and a slashed request
`"lodash/fp"`, neither on disk, yield the expected names. -/
theorem parseDependency_missing_path_witness :
    (⟨fun _ => false, fun _ => false, fun _ => false, fun _ => ""⟩ : FS).existsSync
        "lodash/fp" = false ∧
      parseDependency ⟨fun _ => false, fun _ => false, fun _ => false, fun _ => ""⟩
        "lodash/fp" = some ⟨claimedMissingName "lodash/fp", none⟩ ∧
      claimedMissingName "lodash/fp" = "lodash" ∧
      claimedMissingName "/abs" = "/abs" ∧
      claimedMissingName "react" = "react" :=
  ⟨rfl,
    parseDependency_missing_path
      ⟨fun _ => false, fun _ => false, fun _ => false, fun _ => ""⟩ "lodash/fp" rfl,
    by decide, by decide, by decide⟩

/-- C6: `clone` is idempotent — when the local module path
`target/.modules/name` already exists (and `name` carries the required
`radon-extension-` repository namespace), `clone` resolves
`{branch, localPath}` without performing any remote-existence check or
source-control clone. -/
theorem clone_idempotent (env : CloneEnv) (target branch name : String)
    (hname : jsStartsWith name "radon-extension-" = true)
    (hex : env.existsSync (pathJoin (pathJoin target ".modules") name) = true) :
    clone env target branch name =
      (Except.ok ⟨branch, pathJoin (pathJoin target ".modules") name⟩, []) := by
  unfold clone
  rw [hname]
  simp [hex]

/-- C6 witness: a second `clone` of an already-cloned module performs no
collaborator calls. -/
theorem clone_idempotent_witness :
    (jsStartsWith "radon-extension-core" "radon-extension-" = true) ∧
      ((⟨fun p => p == "/work/.modules/radon-extension-core",
          fun _ _ => false, ⟨fun _ => false, fun _ => 0, fun _ => 0⟩⟩ : CloneEnv).existsSync
        (pathJoin (pathJoin "/work" ".modules") "radon-extension-core") = true) ∧
      clone ⟨fun p => p == "/work/.modules/radon-extension-core",
          fun _ _ => false, ⟨fun _ => false, fun _ => 0, fun _ => 0⟩⟩
        "/work" "develop" "radon-extension-core" =
        (Except.ok ⟨"develop", pathJoin (pathJoin "/work" ".modules") "radon-extension-core"⟩, []) :=
  ⟨by decide, by decide,
    clone_idempotent
      ⟨fun p => p == "/work/.modules/radon-extension-core",
        fun _ _ => false, ⟨fun _ => false, fun _ => 0, fun _ => 0⟩⟩
      "/work" "develop" "radon-extension-core" (by decide) (by decide)⟩

/-- C4 counterexample: at the concrete status with no commit hash and a
clean working tree, `resolve`'s repository-status step rejects (an
`Except.error`, i.e. a fatal `Promise.reject()`), and the sequential
module-graph build over a list containing that module aborts with the same
rejection instead of continuing — there is no non-fatal validation flag. -/
theorem resolve_invalid_status_counterexample :
    checkRepositoryStatus ⟨0, false, none, none, none, none⟩ =
        Except.error "Invalid repository status (no commit defined)" ∧
      runSequentialE checkRepositoryStatus
        [⟨0, false, some "develop", some "1a2b3c", none, none⟩,
          ⟨0, false, none, none, none, none⟩,
          ⟨0, false, some "develop", some "4d5e6f", none, none⟩] =
        Except.error "Invalid repository status (no commit defined)" :=
  ⟨rfl, rfl⟩

/-- C4 (amended): during module resolution, a resolved repository status
with neither a commit hash nor a dirty flag makes `resolve` fail fatally —
it logs the error and rejects, and the rejection aborts the surrounding
sequential module-graph build; no validation flag is set and resolution does
not continue. -/
theorem checkRepositoryStatus_fatal (repository : RepositoryStatus) :
    (checkRepositoryStatus repository =
        Except.error "Invalid repository status (no commit defined)" ↔
      (repository.commit = none ∧ repository.dirty = false)) ∧
    (∀ statuses : List RepositoryStatus, repository ∈ statuses →
      repository.commit = none → repository.dirty = false →
      runSequentialE checkRepositoryStatus statuses =
        Except.error "Invalid repository status (no commit defined)") := by
  have herr : ∀ r : RepositoryStatus,
      checkRepositoryStatus r = Except.error "Invalid repository status (no commit defined)" ↔
        (r.commit = none ∧ r.dirty = false) := by
    intro r
    unfold checkRepositoryStatus
    constructor
    · intro h
      by_contra hc
      rw [if_neg hc] at h
      exact absurd h (by simp)
    · intro h
      rw [if_pos h]
  refine ⟨herr repository, ?_⟩
  intro statuses hmem hc hd
  induction statuses with
  | nil => cases hmem
  | cons x rest ih =>
    rcases List.mem_cons.mp hmem with hx | hx
    · simp only [runSequentialE]
      rw [← hx, (herr repository).mpr ⟨hc, hd⟩]
    · simp only [runSequentialE]
      cases hcx : checkRepositoryStatus x with
      | error e =>
        have : e = "Invalid repository status (no commit defined)" := by
          unfold checkRepositoryStatus at hcx
          by_cases hb : x.commit = none ∧ x.dirty = false
          · rw [if_pos hb] at hcx
            injection hcx with h
            exact h.symm
          · rw [if_neg hb] at hcx
            exact absurd hcx (by simp)
        rw [this]
      | ok y =>
        rw [ih hx]

/-- C4 witness for the amended claim: applied at the concrete inconsistent
status inside a concrete module list. -/
theorem checkRepositoryStatus_fatal_witness :
    (checkRepositoryStatus ⟨0, false, none, none, none, none⟩ =
        Except.error "Invalid repository status (no commit defined)" ↔
      ((⟨0, false, none, none, none, none⟩ : RepositoryStatus).commit = none ∧
        (⟨0, false, none, none, none, none⟩ : RepositoryStatus).dirty = false)) ∧
      runSequentialE checkRepositoryStatus
        [⟨0, false, some "develop", some "1a2b3c", none, none⟩,
          ⟨0, false, none, none, none, none⟩] =
        Except.error "Invalid repository status (no commit defined)" :=
  ⟨(checkRepositoryStatus_fatal ⟨0, false, none, none, none, none⟩).1,
    (checkRepositoryStatus_fatal ⟨0, false, none, none, none, none⟩).2
      [⟨0, false, some "develop", some "1a2b3c", none, none⟩,
        ⟨0, false, none, none, none, none⟩]
      (by decide) rfl rfl⟩

/-- C3 counterexample: after
`registerLink(B, E, "/work/node_modules/x", "/modules/x")` on a fresh
registry (no path exists on disk), resolving the *link-path*-prefixed
physical path `"/work/node_modules/x/lib/y.js"` returns it unchanged —
`"/modules/x"` does not occur in it — refuting the claimed result
`"/modules/x/lib/y.js"`. -/
theorem registerLink_resolveLink_counterexample :
    registerLink ⟨fun _ => false, fun _ => false, fun _ => false, fun _ => ""⟩ []
        ⟨"chrome", "neon-extension-chrome", ⟨⟨"ext", [], [], []⟩⟩, []⟩ ⟨"dev"⟩
        "/work/node_modules/x" "/modules/x" =
      some [("chrome", [("dev", [("/modules/x", "/work/node_modules/x")])])] ∧
      resolveLink [("chrome", [("dev", [("/modules/x", "/work/node_modules/x")])])]
        ⟨"chrome", "neon-extension-chrome", ⟨⟨"ext", [], [], []⟩⟩, []⟩ ⟨"dev"⟩
        (some "/work/node_modules/x/lib/y.js") =
      some "/work/node_modules/x/lib/y.js" ∧
      ("/work/node_modules/x/lib/y.js" : String) ≠ "/modules/x/lib/y.js" :=
  ⟨rfl, by decide, by decide⟩

theorem firstOccur_append_self (pre rest : List Char) :
    firstOccur (pre ++ rest) pre = some 0 := by
  unfold firstOccur
  rw [if_pos (by rw [List.isPrefixOf_iff_prefix]; exact List.prefix_append pre rest)]

/-- C3 (amended): link resolution rewrites in the opposite direction of the
claim — after `registerLink(B, E, source, target)` on a fresh registry (for
a link source that is not on disk and whose parsed name is outside the
internal module namespace), `resolveLink(B, E, target ++ suffix)` rewrites
the registered *target* prefix back to the link *source*, returning
`source ++ suffix`; in particular resolving
`"/modules/x/lib/y.js"` yields `"/work/node_modules/x/lib/y.js"`. -/
theorem registerLink_resolveLink_roundtrip (fs : FS) (browser : Browser)
    (environment : Environment) (source target suffix : String)
    (d : DependencySpec)
    (hparse : parseDependency fs source = some d)
    (hname : jsStartsWith d.name "@radon-extension/" = false) :
    registerLink fs [] browser environment source target =
      some [(browser.name, [(environment.name, [(target, source)])])] ∧
      resolveLink [(browser.name, [(environment.name, [(target, source)])])]
        browser environment (some (target ++ suffix)) = some (source ++ suffix) := by
  constructor
  · unfold registerLink
    rw [hparse]
    simp only [hname, Bool.false_eq_true, if_false]
    simp [slookup, setLink, supdate]
  · unfold resolveLink
    simp only [slookup, List.find?, beq_self_eq_true, Option.getD_some]
    have hocc : strIndexOf (target ++ suffix) target = some 0 := by
      unfold strIndexOf
      rw [String.data_append]
      exact firstOccur_append_self target.data suffix.data
    have hdrop : strDropChars (target ++ suffix) (0 + target.length) = suffix := by
      unfold strDropChars
      rw [Nat.zero_add, String.data_append]
      show String.mk ((target.data ++ suffix.data).drop target.data.length) = suffix
      rw [List.drop_left]
    simp only [resolveLinkGo, hocc, hdrop]

/-- C3 witness for the amended claim: the concrete registration of the
claim's example, resolved in the target-to-source direction. -/
theorem registerLink_resolveLink_roundtrip_witness :
    registerLink ⟨fun _ => false, fun _ => false, fun _ => false, fun _ => ""⟩ []
        ⟨"chrome", "neon-extension-chrome", ⟨⟨"ext", [], [], []⟩⟩, []⟩ ⟨"dev"⟩
        "/work/node_modules/x" "/modules/x" =
      some [("chrome", [("dev", [("/modules/x", "/work/node_modules/x")])])] ∧
      resolveLink [("chrome", [("dev", [("/modules/x", "/work/node_modules/x")])])]
        ⟨"chrome", "neon-extension-chrome", ⟨⟨"ext", [], [], []⟩⟩, []⟩ ⟨"dev"⟩
        (some ("/modules/x" ++ "/lib/y.js")) =
      some ("/work/node_modules/x" ++ "/lib/y.js") :=
  registerLink_resolveLink_roundtrip
    ⟨fun _ => false, fun _ => false, fun _ => false, fun _ => ""⟩
    ⟨"chrome", "neon-extension-chrome", ⟨⟨"ext", [], [], []⟩⟩, []⟩ ⟨"dev"⟩
    "/work/node_modules/x" "/modules/x" "/lib/y.js"
    ⟨"/work/node_modules/x", none⟩ rfl (by decide)

theorem validateRequirement_errorFlag_mono (st : VState) (dep : DependencySpec)
    (module : Module) (h : st.errorFlag = true) :
    (validateRequirement st dep module).1.errorFlag = true := by
  unfold validateRequirement
  cases slookup module.package.dependencies dep.name with
  | none => exact h
  | some v =>
    simp only
    split
    · exact h
    · split
      · exact h
      · split
        · rfl
        · exact h

theorem validateModule_errorFlag_mono (st : VState) (dep : DependencySpec)
    (module : Module) (h : st.errorFlag = true) :
    (validateModule st dep module).1.errorFlag = true := by
  unfold validateModule
  cases slookup module.package.peerDependencies dep.name with
  | none => exact h
  | some v =>
    simp only
    split
    · exact h
    · split
      · rfl
      · exact h

theorem validateDependency_errorFlag_mono (st : VState) (dep : DependencySpec)
    (module : Module) (h : st.errorFlag = true) :
    (validateDependency st dep module).1.errorFlag = true := by
  unfold validateDependency
  split
  · exact validateModule_errorFlag_mono st dep module h
  · exact validateRequirement_errorFlag_mono st dep module h

theorem validateReasonCore_errorFlag_mono (st : VState) (browser : Browser)
    (environment : Environment) (dep : DependencySpec) (module : Option Module)
    (h : st.errorFlag = true) :
    (validateReasonCore st browser environment dep module).1.errorFlag = true := by
  unfold validateReasonCore
  split
  · exact h
  · split
    · rfl
    · cases module with
      | none => rfl
      | some m =>
        simp only
        split
        · split
          · rfl
          · split
            · exact validateDependency_errorFlag_mono st dep m h
            · exact validateDependency_errorFlag_mono st dep m h
        · rfl

theorem validateReason_errorFlag_mono (fs : FS) (st : VState) (browser : Browser)
    (environment : Environment) (source request : Option String)
    (h : st.errorFlag = true) :
    (validateReason fs st browser environment source request).1.errorFlag = true := by
  unfold validateReason
  cases request with
  | none => exact h
  | some req =>
    simp only
    cases parseDependency fs req with
    | none => exact h
    | some dep =>
      simp only
      split
      · exact h
      · cases source with
        | none => exact validateReasonCore_errorFlag_mono st browser environment dep none h
        | some src =>
          simp only
          cases browser.modules.find? (fun m => jsStartsWith src m.path) with
          | none => rfl
          | some m => exact validateReasonCore_errorFlag_mono st browser environment dep (some m) h

/-- C1: `finish` throws exactly when the sticky error flag is set or when no
dependency edge was recorded under `(browser.name, environment.name)`; the
flag is never cleared by a later validation, so once one hard violation
sets it, `finish` fails after any sequence of further validations
(successful or not), and the unused-dependency audit only produces
warnings — it cannot make `finish` throw. -/
theorem finish_sticky_error (fs : FS) (st : VState) (browser : Browser)
    (environment : Environment) (source request : Option String)
    (calls : List (Option String × Option String)) :
    ((∃ msg, finish st browser environment = Except.error msg) ↔
      (st.errorFlag = true ∨
        recordedDependencies st browser.name environment.name = none)) ∧
    (st.errorFlag = true →
      (validateReason fs st browser environment source request).1.errorFlag = true) ∧
    (st.errorFlag = true →
      ∃ msg, finish (runValidations fs browser environment st calls) browser environment =
        Except.error msg) := by
  have hiff : ∀ st' : VState,
      (∃ msg, finish st' browser environment = Except.error msg) ↔
        (st'.errorFlag = true ∨
          recordedDependencies st' browser.name environment.name = none) := by
    intro st'
    unfold finish
    cases herr : st'.errorFlag with
    | true => simp
    | false =>
      simp only [Bool.false_eq_true, if_false]
      cases hrec : recordedDependencies st' browser.name environment.name with
      | none => simp
      | some envDeps => simp
  have hrun : ∀ (calls : List (Option String × Option String)) (st' : VState),
      st'.errorFlag = true →
      (runValidations fs browser environment st' calls).errorFlag = true := by
    intro calls
    induction calls with
    | nil => intro st' h; exact h
    | cons c rest ih =>
      intro st' h
      exact ih _ (validateReason_errorFlag_mono fs st' browser environment c.1 c.2 h)
  refine ⟨hiff st, validateReason_errorFlag_mono fs st browser environment source request, ?_⟩
  intro h
  exact (hiff (runValidations fs browser environment st calls)).mpr
    (Or.inl (hrun calls st h))

/-- C1 witness: with the error flag set, `finish` fails even though the
used-dependency index is nonempty for the pair. -/
theorem finish_sticky_error_witness :
    ∃ msg,
      finish ⟨[("chrome", [("dev", [("mod", [("lodash", true)])])])], true⟩
        ⟨"chrome", "neon-extension-chrome", ⟨⟨"ext", [], [], []⟩⟩, []⟩ ⟨"dev"⟩ =
        Except.error msg :=
  (finish_sticky_error ⟨fun _ => false, fun _ => false, fun _ => false, fun _ => ""⟩
    ⟨[("chrome", [("dev", [("mod", [("lodash", true)])])])], true⟩
    ⟨"chrome", "neon-extension-chrome", ⟨⟨"ext", [], [], []⟩⟩, []⟩ ⟨"dev"⟩
    none none []).1.mpr (Or.inl rfl)

theorem validateRequirement_pinned (st : VState) (dep : DependencySpec) (m : Module)
    (v : String) (hdecl : slookup m.package.dependencies dep.name = some v)
    (hpin : pinnedVersionMatch v = true) :
    (validateRequirement st dep m).2.validTruthy = false ∧
      ((validateRequirement st dep m).1 = st ∨
        (validateRequirement st dep m).1 = { st with errorFlag := true }) := by
  unfold validateRequirement
  rw [hdecl]
  by_cases h1 : (slookup m.package.devDependencies dep.name).isSome
  · simp [h1, VDResult.validTruthy]
  · by_cases h2 : (slookup m.package.peerDependencies dep.name).isSome
    · simp [h1, h2, VDResult.validTruthy]
    · simp [h1, h2, hpin, VDResult.validTruthy]

theorem validateModule_pinned (st : VState) (dep : DependencySpec) (m : Module)
    (v : String) (hdecl : slookup m.package.peerDependencies dep.name = some v)
    (hpin : pinnedVersionMatch v = true) :
    (validateModule st dep m).2.validTruthy = false ∧
      ((validateModule st dep m).1 = st ∨
        (validateModule st dep m).1 = { st with errorFlag := true }) := by
  unfold validateModule
  rw [hdecl]
  by_cases h1 : (slookup m.package.devDependencies dep.name).isSome
  · simp [h1, VDResult.validTruthy]
  · simp [h1, hpin, VDResult.validTruthy]

theorem validateReasonCore_invalid (st : VState) (browser : Browser)
    (environment : Environment) (dep : DependencySpec) (m : Module)
    (hself : dep.name ≠ m.name)
    (hperm : jsStartsWith dep.name "@radon-extension/" = true →
      dep.name = "@radon-extension/framework")
    (htype : m.type ≠ "package")
    (hinv : (validateDependency st dep m).2.validTruthy = false)
    (herr : (validateDependency st dep m).1 = st ∨
      (validateDependency st dep m).1 = { st with errorFlag := true }) :
    validateReasonCore st browser environment dep (some m) =
      ({ st with errorFlag := true }, false) := by
  unfold validateReasonCore
  have hx1 : ((some m).any fun mm => dep.name == mm.name) = false := by
    simp [Option.any, hself]
  have hx2 : ¬(jsStartsWith dep.name "@radon-extension/" = true ∧
      isModulePermitted (some m) dep.name = false) := by
    rintro ⟨hsw, hp⟩
    rw [hperm hsw] at hp
    simp [isModulePermitted] at hp
  rw [if_neg (by simp [hx1]), if_neg hx2]
  simp only [ne_eq, htype, not_false_eq_true, if_true, hinv, if_pos]
  rcases herr with h | h <;> rw [h]

/-- C2: every dependency edge (internal-module edge checked against
`peerDependencies`, external-package edge checked against `dependencies`)
whose declared version string matches the exact-pin regex fails validation
and sets the validator's sticky error flag, regardless of the other policy
checks on the edge. -/
theorem pinned_dependency_fails (fs : FS) (st : VState) (browser : Browser)
    (environment : Environment) (src request version : String)
    (d : DependencySpec) (m : Module)
    (hparse : parseDependency fs request = some d)
    (hign : IgnoredPackages.contains d.name = false)
    (hfind : browser.modules.find? (fun mm => jsStartsWith src mm.path) = some m)
    (hself : d.name ≠ m.name)
    (hperm : jsStartsWith d.name "@radon-extension/" = true →
      d.name = "@radon-extension/framework")
    (htype : m.type ≠ "package")
    (hdecl : slookup
      (if jsStartsWith d.name "@radon-extension/" = true then m.package.peerDependencies
        else m.package.dependencies) d.name = some version)
    (hpin : pinnedVersionMatch version = true) :
    validateReason fs st browser environment (some src) (some request) =
      ({ st with errorFlag := true }, false) := by
  have hcore : validateReasonCore st browser environment d (some m) =
      ({ st with errorFlag := true }, false) := by
    by_cases hsw : jsStartsWith d.name "@radon-extension/" = true
    · rw [if_pos hsw] at hdecl
      have hvd : validateDependency st d m = validateModule st d m := by
        unfold validateDependency
        rw [if_pos hsw]
      have hp := validateModule_pinned st d m version hdecl hpin
      exact validateReasonCore_invalid st browser environment d m hself hperm htype
        (by rw [hvd]; exact hp.1) (by rw [hvd]; exact hp.2)
    · rw [if_neg hsw] at hdecl
      have hvd : validateDependency st d m = validateRequirement st d m := by
        unfold validateDependency
        rw [if_neg hsw]
      have hp := validateRequirement_pinned st d m version hdecl hpin
      exact validateReasonCore_invalid st browser environment d m hself hperm htype
        (by rw [hvd]; exact hp.1) (by rw [hvd]; exact hp.2)
  show (match parseDependency fs request with
    | none => (st, false)
    | some dep =>
      if IgnoredPackages.contains dep.name = true then (st, false)
      else
        match browser.modules.find? (fun mm => jsStartsWith src mm.path) with
        | none => ({ st with errorFlag := true }, false)
        | some m => validateReasonCore st browser environment dep (some m)) =
    ({ st with errorFlag := true }, false)
  rw [hparse]
  simp only [hign, Bool.false_eq_true, if_false]
  rw [hfind]
  exact hcore

/-- C2 witness: a module declaring the external dependency
`lodash: "4.17.5"` (an exact pin) fails validation of the edge and sets the
error flag. -/
theorem pinned_dependency_fails_witness :
    validateReason ⟨fun _ => false, fun _ => false, fun _ => false, fun _ => ""⟩
        ⟨[], false⟩
        ⟨"chrome", "neon-extension-chrome", ⟨⟨"ext", [], [], []⟩⟩,
          [⟨"mod-a", "source", "/mod", ⟨"mod-a", [("lodash", "4.17.5")], [], []⟩⟩]⟩
        ⟨"dev"⟩ (some "/mod/index.js") (some "lodash") =
      ({ (⟨[], false⟩ : VState) with errorFlag := true }, false) :=
  pinned_dependency_fails
    ⟨fun _ => false, fun _ => false, fun _ => false, fun _ => ""⟩ ⟨[], false⟩
    ⟨"chrome", "neon-extension-chrome", ⟨⟨"ext", [], [], []⟩⟩,
      [⟨"mod-a", "source", "/mod", ⟨"mod-a", [("lodash", "4.17.5")], [], []⟩⟩]⟩
    ⟨"dev"⟩ "/mod/index.js" "lodash" "4.17.5" ⟨"lodash", none⟩
    ⟨"mod-a", "source", "/mod", ⟨"mod-a", [("lodash", "4.17.5")], [], []⟩⟩
    rfl (by decide) (by decide) (by decide) (by decide) (by decide)
    (by decide) (by decide)

theorem mem_checkDependencies (current : SMap String) (matched : SMap Bool)
    (mn0 mn : Option String) (name : String) :
    ((mn, name) ∈ checkDependencies current matched mn0) ↔
      (mn = mn0 ∧ name ∈ skeys current ∧
        jsStartsWith name "@radon-extension/" = false ∧
        (slookup matched name).getD false = false) := by
  unfold checkDependencies skeys
  simp only [List.mem_map, List.mem_filter, Prod.mk.injEq, Bool.and_eq_true,
    Bool.not_eq_true', Bool.not_eq_true]
  constructor
  · rintro ⟨p, ⟨hp, hs, hu⟩, hmn, hname⟩
    subst hname
    exact ⟨hmn.symm, ⟨p, hp, rfl⟩, hs, hu⟩
  · rintro ⟨hmn, ⟨p, hp, hname⟩, hs, hu⟩
    subst hname
    exact ⟨p, ⟨hp, hs, hu⟩, hmn.symm, rfl⟩

/-- C8: when `finish` performs the unused-dependency audit (no error flag,
edges recorded for the pair), a warning `(some m.name, name)` is emitted
exactly for the names declared in the `dependencies` collection of a
non-package, non-tool module `m` that were not marked used under `m.name`
and are not namespaced to `@radon-extension/`; a top-level warning
`(none, name)` likewise for the extension package's `dependencies` against
the index entry at the JS key `null`; and the audit never makes `finish`
throw. -/
theorem finish_unused_audit (st : VState) (browser : Browser)
    (environment : Environment) (envDeps : SMap (SMap Bool)) (m : Module)
    (name : String)
    (herr : st.errorFlag = false)
    (hdeps : recordedDependencies st browser.name environment.name = some envDeps)
    (hm : m ∈ browser.modules)
    (ht1 : m.type ≠ "package")
    (ht2 : m.type ≠ "tool")
    (hnodup : (browser.modules.map Module.name).Nodup) :
    ∃ ws, finish st browser environment = Except.ok ws ∧
      (((some m.name, name) ∈ ws) ↔
        (name ∈ skeys m.package.dependencies ∧
          jsStartsWith name "@radon-extension/" = false ∧
          (slookup ((slookup envDeps m.name).getD []) name).getD false = false)) ∧
      (((none, name) ∈ ws) ↔
        (name ∈ skeys browser.extension.package.dependencies ∧
          jsStartsWith name "@radon-extension/" = false ∧
          (slookup ((slookup envDeps "null").getD []) name).getD false = false)) := by
  have hfilter : m ∈ browser.modules.filter
      (fun mm => !(mm.type == "package" || mm.type == "tool")) := by
    rw [List.mem_filter]
    refine ⟨hm, ?_⟩
    simp [ht1, ht2]
  unfold finish
  rw [herr]
  simp only [Bool.false_eq_true, if_false]
  rw [hdeps]
  refine ⟨_, rfl, ?_, ?_⟩
  · rw [List.mem_append, List.mem_flatMap]
    have htop : ¬((some m.name, name) ∈ checkDependencies
        browser.extension.package.dependencies ((slookup envDeps "null").getD []) none) := by
      rw [mem_checkDependencies]
      simp
    constructor
    · rintro (hx | ⟨m1, hm1, hmem⟩)
      · exact absurd hx htop
      · rw [mem_checkDependencies] at hmem
        obtain ⟨heq, h2, h3, h4⟩ := hmem
        have hm1mem : m1 ∈ browser.modules := (List.mem_filter.mp hm1).1
        have hname : m1.name = m.name := Option.some.inj heq.symm
        have hm1m : m1 = m := List.inj_on_of_nodup_map hnodup hm1mem hm hname
        subst hm1m
        exact ⟨h2, h3, h4⟩
    · rintro ⟨h2, h3, h4⟩
      right
      refine ⟨m, hfilter, ?_⟩
      rw [mem_checkDependencies]
      exact ⟨rfl, h2, h3, h4⟩
  · rw [List.mem_append, List.mem_flatMap]
    constructor
    · rintro (hx | ⟨m1, hm1, hmem⟩)
      · rw [mem_checkDependencies] at hx
        exact ⟨hx.2.1, hx.2.2.1, hx.2.2.2⟩
      · rw [mem_checkDependencies] at hmem
        exact absurd hmem.1 (by simp)
    · rintro ⟨h2, h3, h4⟩
      left
      rw [mem_checkDependencies]
      exact ⟨rfl, h2, h3, h4⟩

/-- C8 witness: a concrete state where module `mod-a` declares `lodash`
(used) and `moment` (unused): `finish` succeeds and warns exactly on
`moment` for `mod-a`. -/
theorem finish_unused_audit_witness :
    ∃ ws,
      finish ⟨[("chrome", [("dev", [("mod-a", [("lodash", true)])])])], false⟩
          ⟨"chrome", "neon-extension-chrome", ⟨⟨"ext", [], [], []⟩⟩,
            [⟨"mod-a", "source", "/mod",
              ⟨"mod-a", [("lodash", "^4.17.5"), ("moment", "^2.0.0")], [], []⟩⟩]⟩
          ⟨"dev"⟩ =
        Except.ok ws ∧
      (((some "mod-a", "moment") ∈ ws) ↔
        ("moment" ∈ skeys ([("lodash", "^4.17.5"), ("moment", "^2.0.0")] : SMap String) ∧
          jsStartsWith "moment" "@radon-extension/" = false ∧
          (slookup ((slookup [("mod-a", [("lodash", true)])] "mod-a").getD [])
            "moment").getD false = false)) ∧
      (((none, "moment") ∈ ws) ↔
        ("moment" ∈ skeys ([] : SMap String) ∧
          jsStartsWith "moment" "@radon-extension/" = false ∧
          (slookup ((slookup [("mod-a", [("lodash", true)])] "null").getD [])
            "moment").getD false = false)) :=
  finish_unused_audit
    ⟨[("chrome", [("dev", [("mod-a", [("lodash", true)])])])], false⟩
    ⟨"chrome", "neon-extension-chrome", ⟨⟨"ext", [], [], []⟩⟩,
      [⟨"mod-a", "source", "/mod",
        ⟨"mod-a", [("lodash", "^4.17.5"), ("moment", "^2.0.0")], [], []⟩⟩]⟩
    ⟨"dev"⟩ [("mod-a", [("lodash", true)])]
    ⟨"mod-a", "source", "/mod",
      ⟨"mod-a", [("lodash", "^4.17.5"), ("moment", "^2.0.0")], [], []⟩⟩
    "moment" rfl (by decide) (by decide) (by decide) (by decide) (by decide)

end Radon
